import Mathlib

/-!
Verification model of the WebRTC multi-object-detection repository.

The development shallowly embeds the parts of the code that the claims are
about:

* `Detect` — the bounded processing queue and drain loop of
  `ObjectDetectionService` (`src/server/detection/detection-service.js`:
  `detectServerSide`, `processQueue`, `runInference`, `getMockDetections`),
  as a small-step transition system over an explicit pipeline state.
* `Metrics` — the `MetricsCollector` class of the same file
  (`calculatePercentile`, `calculateAverage`, `getMetrics`,
  `recordDroppedFrame`, `recordFrame`, `reset`), with JavaScript number
  semantics (`Infinity`, `-Infinity`, `x || 0`) made explicit where the
  code relies on them.
* `Signal` — the `WebRTCSignaling` class (`handleJoinRoom`, `handleOffer`,
  `handleAnswer`, `handleIceCandidate`, `handleDataChannelMessage`,
  `handleDisconnect`, `removeFromRoom`, `getRoomInfo`), with JavaScript
  `Map`/`Set` modelled as association lists preserving insertion order and
  JavaScript truthiness of the `client.room` field modelled explicitly
  (`null` and the empty string are falsy).

Frames, payloads and timestamps are opaque (`Nat`/`ℚ`).
-/

namespace Detect

/-- State of one `ObjectDetectionService` pipeline instance, together with
ghost history fields (`enqueued`, `dispatched`, `evicted`) recording the
order of admissions, dispatches and oldest-drops.  `processingQueue` holds
frame ids; `isProcessing` is the drain-loop guard flag; `inFlight` is the
frame whose `runInference` call is currently awaited. -/
structure PipelineState where
  maxQueueSize : Nat
  processingQueue : List Nat
  isProcessing : Bool
  inFlight : Option Nat
  enqueued : List Nat
  dispatched : List Nat
  evicted : List Nat
  deriving Repr, DecidableEq

/-- Events of the pipeline.  `enqueue f` is the synchronous body of
`detectServerSide` (evict-if-full then push); `beginDrain` is `processQueue`
passing its reentrancy guard and setting `isProcessing`; `dispatch` is the
loop body shifting the queue head and starting `runInference` on it;
`complete` is the awaited inference settling (resolve or reject);
`endDrain` is the loop exiting on an empty queue and clearing the flag. -/
inductive PEvent where
  | enqueue (f : Nat)
  | beginDrain
  | dispatch
  | complete
  | endDrain
  deriving Repr, DecidableEq

/-- `detectServerSide` admission: if the queue already holds at least
`maxQueueSize` entries, the oldest (head) is removed by `shift()` before the
new frame is pushed at the tail. -/
def enqueueStep (s : PipelineState) (f : Nat) : PipelineState :=
  if s.processingQueue.length ≥ s.maxQueueSize then
    { s with
      processingQueue := s.processingQueue.tail ++ [f]
      enqueued := s.enqueued ++ [f]
      evicted := s.evicted ++ s.processingQueue.head?.toList }
  else
    { s with
      processingQueue := s.processingQueue ++ [f]
      enqueued := s.enqueued ++ [f] }

/-- One small step of the pipeline.  `dispatch` only fires while the drain
loop is running (`isProcessing`) and the previous inference has settled
(`inFlight = none`): in the source the loop body is sequential and `await`s
`runInference` before shifting the next entry, and reentrant `processQueue`
calls return at the guard. -/
def pstep (s : PipelineState) : PEvent → PipelineState
  | .enqueue f => enqueueStep s f
  | .beginDrain =>
    if s.isProcessing then s
    else if s.processingQueue.isEmpty then s
    else { s with isProcessing := true }
  | .dispatch =>
    if s.isProcessing ∧ s.inFlight = none then
      match s.processingQueue with
      | [] => s
      | h :: t =>
        { s with
          processingQueue := t
          inFlight := some h
          dispatched := s.dispatched ++ [h] }
    else s
  | .complete => { s with inFlight := none }
  | .endDrain =>
    if s.processingQueue.isEmpty ∧ s.inFlight = none then
      { s with isProcessing := false }
    else s

/-- Fresh pipeline (constructor): empty queue, flag down, no history.
The source hardcodes `maxQueueSize = 10`; we keep it a parameter. -/
def initPipeline (k : Nat) : PipelineState :=
  { maxQueueSize := k
    processingQueue := []
    isProcessing := false
    inFlight := none
    enqueued := []
    dispatched := []
    evicted := [] }

/-- Run a sequence of pipeline events from a state. -/
def runPipeline (s : PipelineState) (evs : List PEvent) : PipelineState :=
  evs.foldl pstep s

theorem runPipeline_append (s : PipelineState) (l₁ l₂ : List PEvent) :
    runPipeline s (l₁ ++ l₂) = runPipeline (runPipeline s l₁) l₂ :=
  List.foldl_append pstep s l₁ l₂

/-- Every step preserves `maxQueueSize`. -/
theorem pstep_maxQueueSize (s : PipelineState) (e : PEvent) :
    (pstep s e).maxQueueSize = s.maxQueueSize := by
  cases e with
  | enqueue f =>
    simp only [pstep, enqueueStep]
    split <;> rfl
  | beginDrain =>
    simp only [pstep]
    split
    · rfl
    · split <;> rfl
  | dispatch =>
    simp only [pstep]
    split
    · cases s.processingQueue <;> rfl
    · rfl
  | complete => rfl
  | endDrain =>
    simp only [pstep]
    split <;> rfl

/-- Every step preserves the queue-depth bound `length ≤ maxQueueSize`,
provided the bound is positive. -/
theorem pstep_length_le (s : PipelineState) (e : PEvent)
    (hk : 0 < s.maxQueueSize)
    (h : s.processingQueue.length ≤ s.maxQueueSize) :
    (pstep s e).processingQueue.length ≤ (pstep s e).maxQueueSize := by
  rw [pstep_maxQueueSize]
  cases e with
  | enqueue f =>
    simp only [pstep, enqueueStep]
    split
    · rename_i hfull
      have hne : s.processingQueue ≠ [] := by
        intro hnil
        rw [hnil] at hfull
        simp at hfull
        omega
      simp only [List.length_append, List.length_tail, List.length_cons,
        List.length_nil]
      have : 0 < s.processingQueue.length := List.length_pos.mpr hne
      omega
    · rename_i hnotfull
      simp only [List.length_append, List.length_cons, List.length_nil]
      omega
  | beginDrain =>
    simp only [pstep]
    split
    · exact h
    · split <;> exact h
  | dispatch =>
    simp only [pstep]
    split
    · cases hq : s.processingQueue with
      | nil => simp only; exact h
      | cons a t =>
        simp only
        rw [hq] at h
        simp only [List.length_cons] at h
        omega
    · exact h
  | complete => exact h
  | endDrain =>
    simp only [pstep]
    split <;> exact h

theorem runPipeline_maxQueueSize (s : PipelineState) (evs : List PEvent) :
    (runPipeline s evs).maxQueueSize = s.maxQueueSize := by
  induction evs generalizing s with
  | nil => rfl
  | cons e rest ih =>
    show (runPipeline (pstep s e) rest).maxQueueSize = s.maxQueueSize
    rw [ih (pstep s e), pstep_maxQueueSize]

theorem runPipeline_length_le (s : PipelineState) (evs : List PEvent)
    (hk : 0 < s.maxQueueSize)
    (h : s.processingQueue.length ≤ s.maxQueueSize) :
    (runPipeline s evs).processingQueue.length ≤ s.maxQueueSize := by
  induction evs generalizing s with
  | nil => exact h
  | cons e rest ih =>
    show (runPipeline (pstep s e) rest).processingQueue.length ≤ s.maxQueueSize
    have h1 := pstep_length_le s e hk h
    rw [pstep_maxQueueSize] at h1
    have hk1 : 0 < (pstep s e).maxQueueSize := by
      rw [pstep_maxQueueSize]; exact hk
    have h2 := ih (pstep s e) hk1 (by rw [pstep_maxQueueSize]; exact h1)
    rwa [pstep_maxQueueSize] at h2

end Detect

namespace Detect

/-- Two distinct members of a list occur in one of the two relative orders. -/
theorem pair_sublist_of_mem {a b : Nat} :
    ∀ {l : List Nat}, a ∈ l → b ∈ l → a ≠ b →
      List.Sublist [a, b] l ∨ List.Sublist [b, a] l := by
  intro l
  induction l with
  | nil => intro ha; exact absurd ha (List.not_mem_nil a)
  | cons c t ih =>
    intro ha hb hne
    rcases List.mem_cons.mp ha with rfl | ha'
    · have hb' : b ∈ t := by
        rcases List.mem_cons.mp hb with rfl | hb'
        · exact absurd rfl hne
        · exact hb'
      exact Or.inl (List.cons_sublist_cons.mpr (List.singleton_sublist.mpr hb'))
    · rcases List.mem_cons.mp hb with rfl | hb'
      · exact Or.inr (List.cons_sublist_cons.mpr (List.singleton_sublist.mpr ha'))
      · rcases ih ha' hb' hne with h | h
        · exact Or.inl (h.cons c)
        · exact Or.inr (h.cons c)

/-- In a duplicate-free list the relative order of two elements is unique. -/
theorem pair_sublist_antisymm {a b : Nat} :
    ∀ {l : List Nat}, l.Nodup → List.Sublist [a, b] l →
      List.Sublist [b, a] l → False := by
  intro l
  induction l with
  | nil => intro _ h1; cases h1
  | cons c t ih =>
    intro hnd h1 h2
    have hct : c ∉ t := (List.nodup_cons.mp hnd).1
    have hndt : t.Nodup := (List.nodup_cons.mp hnd).2
    cases h1 with
    | cons _ h1' =>
      cases h2 with
      | cons _ h2' => exact ih hndt h1' h2'
      | cons₂ _ h2' =>
        exact hct (h1'.subset (List.mem_cons_of_mem a (List.mem_singleton.mpr rfl)))
    | cons₂ _ h1' =>
      cases h2 with
      | cons _ h2' =>
        exact hct (h2'.subset (List.mem_cons_of_mem b (List.mem_singleton.mpr rfl)))
      | cons₂ _ h2' =>
        exact hct (h2'.subset (List.mem_singleton.mpr rfl))

/-- A sublist of a duplicate-free list preserves relative order. -/
theorem pair_sublist_of_sublist {a b : Nat} {l m : List Nat}
    (hlm : List.Sublist l m) (hm : m.Nodup) (hab : List.Sublist [a, b] m)
    (ha : a ∈ l) (hb : b ∈ l) : List.Sublist [a, b] l := by
  have hne : a ≠ b := by
    rintro rfl
    have hcount : List.count a [a, a] ≤ List.count a m := hab.count_le a
    have h2 : List.count a [a, a] = 2 := by simp
    have h1 : List.count a m ≤ 1 := (List.nodup_iff_count_le_one.mp hm) a
    omega
  rcases pair_sublist_of_mem ha hb hne with h | h
  · exact h
  · exact absurd hab (fun hab => pair_sublist_antisymm hm hab (h.trans hlm))

/-- History invariant of the pipeline: the dispatched frames followed by the
frames still queued form an order-preserving selection (sublist) of all
admitted frames. -/
def histInv (s : PipelineState) : Prop :=
  List.Sublist (s.dispatched ++ s.processingQueue) s.enqueued

theorem pstep_histInv (s : PipelineState) (e : PEvent) (h : histInv s) :
    histInv (pstep s e) := by
  unfold histInv at h ⊢
  cases e with
  | enqueue f =>
    simp only [pstep, enqueueStep]
    split
    · simp only [← List.append_assoc]
      exact ((List.Sublist.append_left s.processingQueue.tail_sublist
        s.dispatched).trans h).append (List.Sublist.refl [f])
    · simp only [← List.append_assoc]
      exact h.append (List.Sublist.refl [f])
  | beginDrain =>
    simp only [pstep]
    split
    · exact h
    · split <;> exact h
  | dispatch =>
    simp only [pstep]
    split
    · cases hq : s.processingQueue with
      | nil => exact h
      | cons hd t =>
        simp only
        rw [List.append_assoc, List.singleton_append]
        rw [hq] at h
        exact h
    · exact h
  | complete => exact h
  | endDrain =>
    simp only [pstep]
    split <;> exact h

theorem runPipeline_histInv (s : PipelineState) (evs : List PEvent)
    (h : histInv s) : histInv (runPipeline s evs) := by
  induction evs generalizing s with
  | nil => exact h
  | cons e rest ih => exact ih (pstep s e) (pstep_histInv s e h)

theorem histInv_init (k : Nat) : histInv (initPipeline k) := by
  unfold histInv initPipeline
  exact List.Sublist.refl []

theorem dispatched_sublist_enqueued (s : PipelineState) (h : histInv s) :
    List.Sublist s.dispatched s.enqueued :=
  (List.sublist_append_left s.dispatched s.processingQueue).trans h

/-- While an inference is awaited (`inFlight` set), a `dispatch` step is a
no-op: the queue is not popped and nothing new is dispatched. -/
theorem pstep_dispatch_of_inFlight (s : PipelineState) (x : Nat)
    (h : s.inFlight = some x) : pstep s .dispatch = s := by
  simp only [pstep, h]
  split
  · rename_i hc
    exact absurd hc.2 (by simp [h])
  · rfl

end Detect

namespace Detect

/-- One detection result as produced by the service (label, confidence
score, normalized bounding box). -/
structure Detection where
  label : String
  score : ℚ
  xmin : ℚ
  ymin : ℚ
  xmax : ℚ
  ymax : ℚ
  deriving Repr, DecidableEq

/-- First mock detection hardcoded in `getMockDetections`. -/
def personDetection : Detection :=
  { label := "person", score := 85/100
    xmin := 2/10, ymin := 1/10, xmax := 6/10, ymax := 8/10 }

/-- Second mock detection hardcoded in `getMockDetections`. -/
def phoneDetection : Detection :=
  { label := "phone", score := 72/100
    xmin := 3/10, ymin := 4/10, xmax := 5/10, ymax := 7/10 }

/-- `getMockDetections`: the two hardcoded demo detections, each kept when
the corresponding `Math.random()` draw exceeds `0.3` (the
`filter(() => Math.random() > 0.3)` call).  The two draws are passed in as
`r1`, `r2`. -/
def getMockDetections (r1 r2 : ℚ) : List Detection :=
  (if r1 > 3/10 then [personDetection] else []) ++
    (if r2 > 3/10 then [phoneDetection] else [])

/-- `postprocessResults`: the source ignores the raw model output and
returns `getMockDetections()`. -/
def postprocessResults (r1 r2 : ℚ) : List Detection :=
  getMockDetections r1 r2

inductive InferenceError where
  | sessionUnavailable
  | runFailed
  deriving Repr, DecidableEq

/-- `runInference`: throws (`Except.error`) when `this.session` is missing —
this check sits before the `try` block, so its exception escapes.  When the
session is present, a failing `session.run` is caught and converted to
`getMockDetections()`; a successful run is postprocessed, which also yields
`getMockDetections()`.  `runOutcome` abstracts whether `session.run`
succeeded; `r1`, `r2` are the `Math.random()` draws consumed by
`getMockDetections`. -/
def runInference (sessionAvailable : Bool) (runOutcome : Except Unit Unit)
    (r1 r2 : ℚ) : Except InferenceError (List Detection) :=
  if sessionAvailable = false then Except.error .sessionUnavailable
  else
    match runOutcome with
    | .ok _ => .ok (postprocessResults r1 r2)
    | .error _ => .ok (getMockDetections r1 r2)

/-- How the promise of a queued frame is settled by `processQueue`. -/
inductive FrameOutcome where
  | resolved (ds : List Detection)
  | rejected (e : InferenceError)
  deriving Repr, DecidableEq

/-- The loop body of `processQueue`: `resolve` on a normal return of
`runInference`, `reject` on a thrown error. -/
def settleFrame : Except InferenceError (List Detection) → FrameOutcome
  | .ok ds => .resolved ds
  | .error e => .rejected e

end Detect

namespace Metrics

/-- JavaScript number results relevant to the metrics code: finite values,
the two infinities (`Math.min()` / `Math.max()` of an empty spread), `NaN`,
and `undefined` (out-of-range array index). -/
inductive JSNum where
  | num (q : ℚ)
  | posInf
  | negInf
  | nan
  | undefined
  deriving Repr, DecidableEq

/-- JavaScript truthiness of a number: `0`, `NaN` and `undefined` are
falsy; every other number, including the infinities, is truthy. -/
def jsTruthy : JSNum → Bool
  | .num q => q != 0
  | .posInf => true
  | .negInf => true
  | .nan => false
  | .undefined => false

/-- The `x || 0` idiom: returns `x` unless `x` is falsy. -/
def jsOrZero (x : JSNum) : JSNum :=
  if jsTruthy x then x else .num 0

/-- `Math.min(...values)`: `Infinity` on an empty argument list. -/
def jsMathMin : List ℚ → JSNum
  | [] => .posInf
  | x :: xs => .num (xs.foldl min x)

/-- `Math.max(...values)`: `-Infinity` on an empty argument list. -/
def jsMathMax : List ℚ → JSNum
  | [] => .negInf
  | x :: xs => .num (xs.foldl max x)

/-- JavaScript division for the fps / duration computations:
`0/0 = NaN`, `x/0 = ±Infinity`. -/
def jsDiv (a b : ℚ) : JSNum :=
  if b = 0 then
    if a = 0 then .nan else if a > 0 then .posInf else .negInf
  else .num (a / b)

/-- `[...values].sort((a, b) => a - b)`: ascending numeric sort. -/
def sortAsc (values : List ℚ) : List ℚ :=
  List.insertionSort (fun a b => a ≤ b) values

/-- `calculatePercentile`: nearest-rank on the ascending sort —
`index = Math.ceil((percentile / 100) * sorted.length) - 1`, read at
`Math.max(0, index)`; `0` for an empty series; an out-of-range index would
read as JS undefined. -/
def calculatePercentile (values : List ℚ) (percentile : ℚ) : JSNum :=
  if values.length = 0 then .num 0
  else
    let sorted := sortAsc values
    let index : ℤ := ⌈percentile / 100 * (values.length : ℚ)⌉ - 1
    let j : ℤ := max 0 index
    if h : j.toNat < sorted.length then .num (sorted.get ⟨j.toNat, h⟩)
    else .undefined

/-- `calculateAverage`: `0` for an empty series, else the mean. -/
def calculateAverage (values : List ℚ) : ℚ :=
  if values.length = 0 then 0 else values.sum / (values.length : ℚ)

/-- State of a `MetricsCollector`.  Latency series are plain value lists;
bandwidth samples carry their timestamps (`value`, `timestamp`); the
`frames` history keeps one record timestamp per processed frame. -/
structure MetricsState where
  frames : List ℚ
  totalFrames : Nat
  processedFrames : Nat
  droppedFrames : Nat
  endToEnd : List ℚ
  network : List ℚ
  inference : List ℚ
  overlay : List ℚ
  uplink : List (ℚ × ℚ)
  downlink : List (ℚ × ℚ)
  cpuUsage : List ℚ
  memoryUsage : List ℚ
  systemTimestamp : List ℚ
  lastResetTime : ℚ
  deriving Repr, DecidableEq

/-- `maxFrameHistory` configuration constant. -/
def maxFrameHistory : Nat := 1000

/-- `metricsWindow` configuration constant (milliseconds). -/
def metricsWindow : ℚ := 30000

/-- Fresh collector (constructor). -/
def initMetrics (now : ℚ) : MetricsState :=
  { frames := [], totalFrames := 0, processedFrames := 0, droppedFrames := 0
    endToEnd := [], network := [], inference := [], overlay := []
    uplink := [], downlink := []
    cpuUsage := [], memoryUsage := [], systemTimestamp := []
    lastResetTime := now }

/-- `cleanupOldMetrics` applied to one latency series: arrays longer than
1000 are cut to their last 500 entries. -/
def trimLatency (l : List ℚ) : List ℚ :=
  if l.length > 1000 then l.drop (l.length - 500) else l

/-- `recordFrame`: pushes the three computed latencies, bumps
`totalFrames`/`processedFrames`, appends the frame record (its `timestamp`
field), trims the history to `maxFrameHistory`, then runs
`cleanupOldMetrics` (length-trim of each latency series and time-window
filter of `frames`). -/
def recordFrame (now captureTs recvTs inferenceTs : ℚ) (s : MetricsState) :
    MetricsState :=
  let frames1 := s.frames ++ [now]
  let frames2 := if frames1.length > maxFrameHistory then frames1.tail
    else frames1
  let cutoff := now - metricsWindow
  { s with
    frames := frames2.filter (fun ts => ts > cutoff)
    totalFrames := s.totalFrames + 1
    processedFrames := s.processedFrames + 1
    endToEnd := trimLatency (s.endToEnd ++ [now - captureTs])
    network := trimLatency (s.network ++ [recvTs - captureTs])
    inference := trimLatency (s.inference ++ [inferenceTs - recvTs]) }

/-- `recordDroppedFrame`: bumps the dropped and total counters. -/
def recordDroppedFrame (s : MetricsState) : MetricsState :=
  { s with
    droppedFrames := s.droppedFrames + 1
    totalFrames := s.totalFrames + 1 }

/-- `recordBandwidth`: appends one timestamped sample to each series and
prunes both by the rolling window. -/
def recordBandwidth (now uplinkValue downlinkValue : ℚ) (s : MetricsState) :
    MetricsState :=
  let cutoff := now - metricsWindow
  { s with
    uplink := (s.uplink ++ [(uplinkValue, now)]).filter
      (fun e => e.2 > cutoff)
    downlink := (s.downlink ++ [(downlinkValue, now)]).filter
      (fun e => e.2 > cutoff) }

/-- `collectSystemMetrics`: appends one CPU and one memory sample, then
`cleanupSystemMetrics` trims all three arrays from the first index whose
timestamp is inside the window (keeping everything when none is). -/
def collectSystemMetrics (now cpu mem : ℚ) (s : MetricsState) :
    MetricsState :=
  let ts := s.systemTimestamp ++ [now]
  let cpus := s.cpuUsage ++ [cpu]
  let mems := s.memoryUsage ++ [mem]
  let cutoff := now - metricsWindow
  let found := ts.findIdx (fun t => t > cutoff)
  let keepIndex := if found = ts.length then 0 else found
  { s with
    cpuUsage := cpus.drop keepIndex
    memoryUsage := mems.drop keepIndex
    systemTimestamp := ts.drop keepIndex }

/-- `reset`: clears frames, counters, latency and bandwidth series and the
window start; the system-metrics series are NOT cleared by the source. -/
def reset (now : ℚ) (s : MetricsState) : MetricsState :=
  { s with
    frames := [], totalFrames := 0, processedFrames := 0
    droppedFrames := 0
    endToEnd := [], network := [], inference := [], overlay := []
    uplink := [], downlink := []
    lastResetTime := now }

/-- The six end-to-end latency statistics of `getMetrics`. -/
structure LatencyFullStats where
  median : JSNum
  p95 : JSNum
  p99 : JSNum
  average : JSNum
  min : JSNum
  max : JSNum
  deriving Repr, DecidableEq

/-- The three statistics computed for network and inference latency. -/
structure LatencyShortStats where
  median : JSNum
  p95 : JSNum
  average : JSNum
  deriving Repr, DecidableEq

/-- `current`/`average`/`max` triple used for bandwidth and system stats. -/
structure SeriesStats where
  current : JSNum
  average : JSNum
  max : JSNum
  deriving Repr, DecidableEq

/-- The parts of the `getMetrics` return value the claims are about. -/
structure Snapshot where
  duration : ℚ
  totalFrames : Nat
  processedFrames : Nat
  droppedFrames : Nat
  dropRate : ℚ
  fps : JSNum
  endToEnd : LatencyFullStats
  network : LatencyShortStats
  inference : LatencyShortStats
  uplink : SeriesStats
  downlink : SeriesStats
  cpu : SeriesStats
  memory : SeriesStats
  deriving Repr, DecidableEq

/-- Last element of a series, `0` when empty (the
`values.length > 0 ? values[values.length - 1] : 0` idiom). -/
def lastOrZero (l : List ℚ) : ℚ :=
  (l.getLast?).getD 0

/-- `getMetrics`: the point-in-time snapshot.  `min`/`max` fields follow
the source exactly: `Math.min(...arr) || 0` resp. `Math.max(...arr) || 0`. -/
def getMetrics (now : ℚ) (s : MetricsState) : Snapshot :=
  let duration := (now - s.lastResetTime) / 1000
  let uplinkValues := s.uplink.map (fun e => e.1)
  let downlinkValues := s.downlink.map (fun e => e.1)
  { duration := duration
    totalFrames := s.totalFrames
    processedFrames := s.processedFrames
    droppedFrames := s.droppedFrames
    dropRate := if s.totalFrames > 0 then
      ((s.droppedFrames : ℚ) / (s.totalFrames : ℚ)) * 100 else 0
    fps := jsDiv (s.processedFrames : ℚ) duration
    endToEnd :=
      { median := calculatePercentile s.endToEnd 50
        p95 := calculatePercentile s.endToEnd 95
        p99 := calculatePercentile s.endToEnd 99
        average := .num (calculateAverage s.endToEnd)
        min := jsOrZero (jsMathMin s.endToEnd)
        max := jsOrZero (jsMathMax s.endToEnd) }
    network :=
      { median := calculatePercentile s.network 50
        p95 := calculatePercentile s.network 95
        average := .num (calculateAverage s.network) }
    inference :=
      { median := calculatePercentile s.inference 50
        p95 := calculatePercentile s.inference 95
        average := .num (calculateAverage s.inference) }
    uplink :=
      { current := .num (lastOrZero uplinkValues)
        average := .num (calculateAverage uplinkValues)
        max := jsOrZero (jsMathMax uplinkValues) }
    downlink :=
      { current := .num (lastOrZero downlinkValues)
        average := .num (calculateAverage downlinkValues)
        max := jsOrZero (jsMathMax downlinkValues) }
    cpu :=
      { current := .num (lastOrZero s.cpuUsage)
        average := .num (calculateAverage s.cpuUsage)
        max := jsOrZero (jsMathMax s.cpuUsage) }
    memory :=
      { current := .num (lastOrZero s.memoryUsage)
        average := .num (calculateAverage s.memoryUsage)
        max := jsOrZero (jsMathMax s.memoryUsage) } }

end Metrics

namespace Server

/-- Combined server state: the detection pipeline plus the metrics
collector created by the server (`this.metricsCollector`). -/
structure ServerState where
  pipeline : Detect.PipelineState
  metrics : Metrics.MetricsState
  deriving Repr, DecidableEq

/-- Server events and the metrics calls the source performs on each path.
A pipeline event (`pipe`) — in particular a `detectServerSide` admission
with its possible eviction — touches the metrics in no way: the detection
service holds no reference to the collector, and `recordDroppedFrame` has
no caller anywhere in the repository.  `frameResult` is the server relaying
a detection result into `recordFrame`; `bandwidth`, `sysSample` and
`resetMetrics` are the remaining collector entry points the server
invokes. -/
inductive SEvent where
  | pipe (e : Detect.PEvent)
  | frameResult (now captureTs recvTs inferenceTs : ℚ)
  | bandwidth (now u d : ℚ)
  | sysSample (now cpu mem : ℚ)
  | resetMetrics (now : ℚ)
  deriving Repr, DecidableEq

def sstep (s : ServerState) : SEvent → ServerState
  | .pipe e => { s with pipeline := Detect.pstep s.pipeline e }
  | .frameResult now c r i =>
    { s with metrics := Metrics.recordFrame now c r i s.metrics }
  | .bandwidth now u d =>
    { s with metrics := Metrics.recordBandwidth now u d s.metrics }
  | .sysSample now cpu mem =>
    { s with metrics := Metrics.collectSystemMetrics now cpu mem s.metrics }
  | .resetMetrics now => { s with metrics := Metrics.reset now s.metrics }

def initServer (k : Nat) (now : ℚ) : ServerState :=
  { pipeline := Detect.initPipeline k, metrics := Metrics.initMetrics now }

def runServer (s : ServerState) (evs : List SEvent) : ServerState :=
  evs.foldl sstep s

/-- No server event ever increases `droppedFrames`: starting from `0` it
stays `0` along every trace. -/
theorem runServer_droppedFrames (s : ServerState) (evs : List SEvent)
    (h : s.metrics.droppedFrames = 0) :
    (runServer s evs).metrics.droppedFrames = 0 := by
  induction evs generalizing s with
  | nil => exact h
  | cons e rest ih =>
    show (runServer (sstep s e) rest).metrics.droppedFrames = 0
    apply ih
    cases e with
    | pipe e => exact h
    | frameResult now c r i => exact h
    | bandwidth now u d => exact h
    | sysSample now cpu mem => exact h
    | resetMetrics now => rfl

end Server

namespace Signal

/-- One entry of `this.clients`: declared type (`null` until `register`)
and current room (`null` until a join). -/
structure ClientInfo where
  type : Option String
  room : Option String
  deriving Repr, DecidableEq

/-- One entry of `this.rooms`: the member set (insertion-ordered, no
duplicates, as a JavaScript `Set`) and the creation timestamp. -/
structure Room where
  clients : List String
  created : ℚ
  deriving Repr, DecidableEq

/-- `WebRTCSignaling` state: two insertion-ordered key-value maps. -/
structure SigState where
  rooms : List (String × Room)
  clients : List (String × ClientInfo)
  deriving Repr, DecidableEq

/-- `Map.get`. -/
def mget {α : Type} (m : List (String × α)) (k : String) : Option α :=
  match m with
  | [] => none
  | (k₀, v₀) :: rest => if k₀ = k then some v₀ else mget rest k

/-- `Map.set`: replaces in place, appends when absent. -/
def mset {α : Type} (m : List (String × α)) (k : String) (v : α) :
    List (String × α) :=
  match m with
  | [] => [(k, v)]
  | (k₀, v₀) :: rest =>
    if k₀ = k then (k₀, v) :: rest else (k₀, v₀) :: mset rest k v

/-- `Map.delete`. -/
def mdel {α : Type} (m : List (String × α)) (k : String) :
    List (String × α) :=
  match m with
  | [] => []
  | (k₀, v₀) :: rest => if k₀ = k then rest else (k₀, v₀) :: mdel rest k

/-- `Set.add`: no-op when already present, else appended. -/
def saddUnique (l : List String) (x : String) : List String :=
  if x ∈ l then l else l ++ [x]

/-- JavaScript truthiness of the `client.room` field: `null` and the empty
string are falsy. -/
def roomTruthy : Option String → Bool
  | none => false
  | some r => r != ""

/-- Messages emitted by the signaling handlers. -/
inductive Emit where
  | registered (dest : String) (ty : Option String)
  | peerJoined (roomId : String) (fromId : String) (ty : Option String)
  | roomJoined (dest : String) (roomId : String)
      (others : List (String × Option String))
  | peerLeft (roomId : String) (fromId : String)
  | offerMsg (dest : String) (fromId : String) (payload : Nat)
  | answerMsg (dest : String) (fromId : String) (payload : Nat)
  | iceMsg (dest : String) (fromId : String) (payload : Nat)
  | dcMsg (dest : String) (fromId : String) (payload : Nat)
  deriving Repr, DecidableEq

/-- `handleConnection`: registers the socket with null type and room. -/
def handleConnection (s : SigState) (sid : String) : SigState :=
  { s with clients := mset s.clients sid { type := none, room := none } }

/-- `handleRegister`. -/
def handleRegister (s : SigState) (sid : String) (ty : Option String) :
    SigState × List Emit :=
  match mget s.clients sid with
  | none => (s, [])
  | some c =>
    ({ s with clients := mset s.clients sid { c with type := ty } },
      [Emit.registered sid ty])

/-- `removeFromRoom`: deletes the member; deletes the whole room in the
same step when the member set became empty. -/
def removeFromRoom (s : SigState) (roomId clientId : String) : SigState :=
  match mget s.rooms roomId with
  | none => s
  | some room =>
    let cs := room.clients.erase clientId
    if cs.length = 0 then { s with rooms := mdel s.rooms roomId }
    else { s with rooms := mset s.rooms roomId { room with clients := cs } }

/-- The member list a `room-joined` reply reports: every member other than
the joining peer, with its registered type (`"unknown"` for a member whose
client record is gone). -/
def roomClientList (s : SigState) (members : List String) (sid : String) :
    List (String × Option String) :=
  (members.filter (fun i => i ≠ sid)).map (fun i =>
    match mget s.clients i with
    | some ci => (i, ci.type)
    | none => (i, some "unknown"))

/-- The `if (client.room) { ... removeFromRoom ... }` step shared by
`handleJoinRoom` and `handleDisconnect`: a truthy current room is left,
a falsy one (`null` or `""`) is not. -/
def leaveCurrentRoom (s : SigState) (c : ClientInfo) (sid : String) :
    SigState :=
  if roomTruthy c.room then removeFromRoom s (c.room.getD "") sid else s

/-- The `if (!this.rooms.has(roomId)) this.rooms.set(roomId, ...)` step:
creates the room with an empty member set and a fresh timestamp. -/
def ensureRoom (now : ℚ) (s : SigState) (roomId : String) : SigState :=
  match mget s.rooms roomId with
  | none => { s with
      rooms := mset s.rooms roomId { clients := [], created := now } }
  | some _ => s

/-- The `room.clients.add(socket.id)` step, on the room freshly ensured to
exist; returns the updated state and the member list after the add. -/
def addMember (now : ℚ) (s : SigState) (roomId sid : String) :
    SigState × List String :=
  let room := (mget s.rooms roomId).getD { clients := [], created := now }
  let members := saddUnique room.clients sid
  ({ s with rooms := mset s.rooms roomId { room with clients := members } },
    members)

/-- `handleJoinRoom`: unknown sockets are ignored; a truthy current room is
left first (`removeFromRoom`, with no notification); the target room is
created on demand with a fresh timestamp; the peer is added; a
`peer-joined` broadcast and a `room-joined` reply are emitted. -/
def handleJoinRoom (now : ℚ) (s : SigState) (sid roomId : String) :
    SigState × List Emit :=
  match mget s.clients sid with
  | none => (s, [])
  | some c =>
    let s1 := leaveCurrentRoom s c sid
    let s2 := { s1 with
      clients := mset s1.clients sid { c with room := some roomId } }
    let s3 := ensureRoom now s2 roomId
    let p := addMember now s3 roomId sid
    (p.1, [Emit.peerJoined roomId sid c.type,
      Emit.roomJoined sid roomId (roomClientList p.1 p.2 sid)])

/-- `handleDisconnect`: a truthy room is left (`removeFromRoom`) and its
remaining members are notified (`peer-left`); the client record is
deleted. -/
def handleDisconnect (s : SigState) (sid : String) : SigState × List Emit :=
  match mget s.clients sid with
  | none => (s, [])
  | some c =>
    let s1 := leaveCurrentRoom s c sid
    let emits := if roomTruthy c.room then
        [Emit.peerLeft (c.room.getD "") sid]
      else []
    ({ s1 with clients := mdel s1.clients sid }, emits)

/-- Guard shared by all four relay handlers:
`if (!client || !client.room) return`. -/
def senderCanRelay (s : SigState) (sid : String) : Bool :=
  match mget s.clients sid with
  | none => false
  | some c => roomTruthy c.room

/-- `handleOffer`. -/
def handleOffer (s : SigState) (sid targetId : String) (payload : Nat) :
    SigState × List Emit :=
  if senderCanRelay s sid then (s, [Emit.offerMsg targetId sid payload])
  else (s, [])

/-- `handleAnswer`. -/
def handleAnswer (s : SigState) (sid targetId : String) (payload : Nat) :
    SigState × List Emit :=
  if senderCanRelay s sid then (s, [Emit.answerMsg targetId sid payload])
  else (s, [])

/-- `handleIceCandidate`. -/
def handleIceCandidate (s : SigState) (sid targetId : String)
    (payload : Nat) : SigState × List Emit :=
  if senderCanRelay s sid then (s, [Emit.iceMsg targetId sid payload])
  else (s, [])

/-- `handleDataChannelMessage`. -/
def handleDataChannelMessage (s : SigState) (sid targetId : String)
    (payload : Nat) : SigState × List Emit :=
  if senderCanRelay s sid then (s, [Emit.dcMsg targetId sid payload])
  else (s, [])

/-- `getRoomInfo`: `null` for an absent room, else id, member list with
types, and creation timestamp. -/
def getRoomInfo (s : SigState) (roomId : String) :
    Option (String × List (String × Option String) × ℚ) :=
  match mget s.rooms roomId with
  | none => none
  | some room =>
    some (roomId, (room.clients.map (fun i =>
      match mget s.clients i with
      | some ci => (i, ci.type)
      | none => (i, some "unknown"))), room.created)

/-- Trace events for the room-lifecycle invariant. -/
inductive SigEvent where
  | connect (id : String)
  | register (id : String) (ty : Option String)
  | join (now : ℚ) (id roomId : String)
  | disconnect (id : String)
  deriving Repr, DecidableEq

def sigStep (s : SigState) : SigEvent → SigState
  | .connect id => handleConnection s id
  | .register id ty => (handleRegister s id ty).1
  | .join now id roomId => (handleJoinRoom now s id roomId).1
  | .disconnect id => (handleDisconnect s id).1

def initSig : SigState := { rooms := [], clients := [] }

def runSig (s : SigState) (evs : List SigEvent) : SigState :=
  evs.foldl sigStep s

end Signal

namespace Signal

theorem mget_mset {α : Type} (m : List (String × α)) (k : String) (v : α)
    (x : String) :
    mget (mset m k v) x = if k = x then some v else mget m x := by
  induction m with
  | nil => simp [mset, mget]
  | cons hd rest ih =>
    obtain ⟨k₀, v₀⟩ := hd
    simp only [mset]
    by_cases h₀ : k₀ = k
    · subst h₀
      simp only [if_pos rfl, mget]
      by_cases hx : k₀ = x
      · subst hx; simp
      · simp [hx]
    · simp only [if_neg h₀, mget]
      by_cases hx : k₀ = x
      · subst hx
        have : ¬ k = k₀ := fun h => h₀ h.symm
        simp [this]
      · simp only [if_neg hx]
        exact ih

theorem mget_mdel_ne {α : Type} (m : List (String × α)) (k x : String)
    (h : k ≠ x) : mget (mdel m k) x = mget m x := by
  induction m with
  | nil => rfl
  | cons hd rest ih =>
    obtain ⟨k₀, v₀⟩ := hd
    simp only [mdel]
    by_cases h₀ : k₀ = k
    · subst h₀
      simp only [if_pos rfl, mget]
      have : ¬ k₀ = x := fun hx => h (hx ▸ rfl)
      simp [this]
    · simp only [if_neg h₀, mget]
      by_cases hx : k₀ = x
      · simp [hx]
      · simp only [if_neg hx]
        exact ih

/-- Key list of an association-list map. -/
def mkeys {α : Type} (m : List (String × α)) : List String :=
  m.map Prod.fst

theorem mget_eq_none {α : Type} (m : List (String × α)) (k : String)
    (h : k ∉ mkeys m) : mget m k = none := by
  induction m with
  | nil => rfl
  | cons hd rest ih =>
    obtain ⟨k₀, v₀⟩ := hd
    simp only [mkeys, List.map_cons, List.mem_cons] at h
    push_neg at h
    simp only [mget]
    rw [if_neg (fun hx => h.1 hx.symm)]
    exact ih h.2

theorem mem_mkeys_mset {α : Type} (m : List (String × α)) (k : String)
    (v : α) (x : String) (h : x ∈ mkeys (mset m k v)) :
    x ∈ mkeys m ∨ x = k := by
  induction m with
  | nil =>
    simp only [mset, mkeys, List.map_cons, List.map_nil,
      List.mem_singleton] at h
    exact Or.inr h
  | cons hd rest ih =>
    obtain ⟨k₀, v₀⟩ := hd
    simp only [mset] at h
    by_cases h₀ : k₀ = k
    · rw [if_pos h₀] at h
      simp only [mkeys, List.map_cons, List.mem_cons] at h ⊢
      rcases h with hx | hx
      · exact Or.inl (Or.inl hx)
      · exact Or.inl (Or.inr hx)
    · rw [if_neg h₀] at h
      simp only [mkeys, List.map_cons, List.mem_cons] at h ⊢
      rcases h with hx | hx
      · exact Or.inl (Or.inl hx)
      · rcases ih hx with hy | hy
        · exact Or.inl (Or.inr hy)
        · exact Or.inr hy

theorem nodup_mkeys_mset {α : Type} (m : List (String × α)) (k : String)
    (v : α) (h : (mkeys m).Nodup) : (mkeys (mset m k v)).Nodup := by
  induction m with
  | nil => simp [mset, mkeys]
  | cons hd rest ih =>
    obtain ⟨k₀, v₀⟩ := hd
    simp only [mkeys, List.map_cons, List.nodup_cons] at h
    simp only [mset]
    by_cases h₀ : k₀ = k
    · rw [if_pos h₀]
      simp only [mkeys, List.map_cons, List.nodup_cons]
      exact h
    · rw [if_neg h₀]
      simp only [mkeys, List.map_cons, List.nodup_cons]
      constructor
      · intro hx
        rcases mem_mkeys_mset rest k v k₀ hx with hy | hy
        · exact h.1 hy
        · exact h₀ hy
      · exact ih h.2

theorem mkeys_mdel_sublist {α : Type} (m : List (String × α)) (k : String) :
    List.Sublist (mkeys (mdel m k)) (mkeys m) := by
  induction m with
  | nil => exact List.Sublist.refl []
  | cons hd rest ih =>
    obtain ⟨k₀, v₀⟩ := hd
    simp only [mdel]
    by_cases h₀ : k₀ = k
    · rw [if_pos h₀]
      exact (List.Sublist.refl (mkeys rest)).cons k₀
    · rw [if_neg h₀]
      simp only [mkeys, List.map_cons]
      exact ih.cons₂ k₀

theorem nodup_mkeys_mdel {α : Type} (m : List (String × α)) (k : String)
    (h : (mkeys m).Nodup) : (mkeys (mdel m k)).Nodup :=
  (mkeys_mdel_sublist m k).nodup h

theorem mget_mdel_self {α : Type} (m : List (String × α)) (k : String)
    (h : (mkeys m).Nodup) : mget (mdel m k) k = none := by
  induction m with
  | nil => rfl
  | cons hd rest ih =>
    obtain ⟨k₀, v₀⟩ := hd
    simp only [mkeys, List.map_cons, List.nodup_cons] at h
    simp only [mdel]
    by_cases h₀ : k₀ = k
    · rw [if_pos h₀]
      subst h₀
      exact mget_eq_none rest k₀ h.1
    · rw [if_neg h₀]
      simp only [mget, if_neg h₀]
      exact ih h.2

theorem saddUnique_ne_nil (l : List String) (x : String) :
    saddUnique l x ≠ [] := by
  unfold saddUnique
  split
  · rename_i hmem
    intro hnil
    rw [hnil] at hmem
    exact List.not_mem_nil x hmem
  · intro hnil
    exact absurd (List.append_ne_nil_of_right_ne_nil l
      (by simp : ([x] : List String) ≠ [])) (fun h => h hnil)

theorem mem_saddUnique_self (l : List String) (x : String) :
    x ∈ saddUnique l x := by
  unfold saddUnique
  split
  · assumption
  · simp

theorem mem_saddUnique_iff (l : List String) (x y : String) :
    y ∈ saddUnique l x ↔ y ∈ l ∨ y = x := by
  unfold saddUnique
  split
  · rename_i hmem
    constructor
    · exact Or.inl
    · rintro (h | rfl)
      · exact h
      · exact hmem
  · simp

end Signal

namespace Signal

/-- Well-formedness of the room map: keys are unique (JavaScript `Map`)
and no retained room has an empty member set. -/
def roomsWF (s : SigState) : Prop :=
  (mkeys s.rooms).Nodup ∧
    ∀ r room, mget s.rooms r = some room → room.clients ≠ []

theorem removeFromRoom_roomsWF (s : SigState) (roomId clientId : String)
    (h : roomsWF s) : roomsWF (removeFromRoom s roomId clientId) := by
  obtain ⟨hnd, hne⟩ := h
  unfold removeFromRoom
  cases hm : mget s.rooms roomId with
  | none => exact ⟨hnd, hne⟩
  | some room =>
    simp only
    split
    · refine ⟨nodup_mkeys_mdel s.rooms roomId hnd, ?_⟩
      intro r room' hm'
      by_cases hr : roomId = r
      · subst hr
        rw [mget_mdel_self s.rooms roomId hnd] at hm'
        exact absurd hm' (by simp)
      · rw [mget_mdel_ne s.rooms roomId r hr] at hm'
        exact hne r room' hm'
    · rename_i hlen
      refine ⟨nodup_mkeys_mset s.rooms roomId _ hnd, ?_⟩
      intro r room' hm'
      rw [mget_mset] at hm'
      by_cases hr : roomId = r
      · rw [if_pos hr] at hm'
        cases hm'
        intro hnil
        exact hlen (by
          rw [show room.clients.erase clientId = [] from hnil]
          rfl)
      · rw [if_neg hr] at hm'
        exact hne r room' hm'

theorem leaveCurrentRoom_roomsWF (s : SigState) (c : ClientInfo)
    (sid : String) (h : roomsWF s) : roomsWF (leaveCurrentRoom s c sid) := by
  unfold leaveCurrentRoom
  split
  · exact removeFromRoom_roomsWF s _ sid h
  · exact h

theorem ensureRoom_mkeys_nodup (now : ℚ) (s : SigState) (roomId : String)
    (h : (mkeys s.rooms).Nodup) :
    (mkeys (ensureRoom now s roomId).rooms).Nodup := by
  unfold ensureRoom
  cases mget s.rooms roomId with
  | none => exact nodup_mkeys_mset s.rooms roomId _ h
  | some room => exact h

theorem ensureRoom_mget_ne (now : ℚ) (s : SigState) (roomId r : String)
    (hr : roomId ≠ r) :
    mget (ensureRoom now s roomId).rooms r = mget s.rooms r := by
  unfold ensureRoom
  cases mget s.rooms roomId with
  | none =>
    simp only
    rw [mget_mset, if_neg hr]
  | some room => rfl

theorem addMember_roomsWF (now : ℚ) (s : SigState) (roomId sid : String)
    (hnd : (mkeys s.rooms).Nodup)
    (hne : ∀ r room, r ≠ roomId → mget s.rooms r = some room →
      room.clients ≠ []) :
    roomsWF (addMember now s roomId sid).1 := by
  unfold addMember
  refine ⟨nodup_mkeys_mset s.rooms roomId _ hnd, ?_⟩
  intro r room' hm'
  rw [mget_mset] at hm'
  by_cases hr : roomId = r
  · rw [if_pos hr] at hm'
    cases hm'
    exact saddUnique_ne_nil _ sid
  · rw [if_neg hr] at hm'
    exact hne r room' (fun h => hr h.symm) hm'

theorem handleJoinRoom_roomsWF (now : ℚ) (s : SigState)
    (sid roomId : String) (h : roomsWF s) :
    roomsWF (handleJoinRoom now s sid roomId).1 := by
  unfold handleJoinRoom
  cases mget s.clients sid with
  | none => exact h
  | some c =>
    simp only
    have h1 : roomsWF (leaveCurrentRoom s c sid) :=
      leaveCurrentRoom_roomsWF s c sid h
    set s1 := leaveCurrentRoom s c sid with hs1
    have h2 : roomsWF { s1 with
        clients := mset s1.clients sid { c with room := some roomId } } :=
      h1
    set s2 : SigState := { s1 with
      clients := mset s1.clients sid { c with room := some roomId } }
    apply addMember_roomsWF
    · exact ensureRoom_mkeys_nodup now s2 roomId h2.1
    · intro r room hr hm
      rw [ensureRoom_mget_ne now s2 roomId r (fun hx => hr hx.symm)] at hm
      exact h2.2 r room hm

theorem handleDisconnect_roomsWF (s : SigState) (sid : String)
    (h : roomsWF s) : roomsWF (handleDisconnect s sid).1 := by
  unfold handleDisconnect
  cases mget s.clients sid with
  | none => exact h
  | some c =>
    simp only
    exact leaveCurrentRoom_roomsWF s c sid h

theorem sigStep_roomsWF (s : SigState) (e : SigEvent) (h : roomsWF s) :
    roomsWF (sigStep s e) := by
  cases e with
  | connect id => exact h
  | register id ty =>
    simp only [sigStep, handleRegister]
    cases mget s.clients id with
    | none => exact h
    | some c => exact h
  | join now id roomId => exact handleJoinRoom_roomsWF now s id roomId h
  | disconnect id => exact handleDisconnect_roomsWF s id h

theorem runSig_roomsWF (s : SigState) (evs : List SigEvent)
    (h : roomsWF s) : roomsWF (runSig s evs) := by
  induction evs generalizing s with
  | nil => exact h
  | cons e rest ih => exact ih (sigStep s e) (sigStep_roomsWF s e h)

theorem roomsWF_init : roomsWF initSig := by
  refine ⟨List.nodup_nil, ?_⟩
  intro r room hm
  exact absurd hm (by simp [initSig, mget])

/-- Removing the last member deletes the room: `getRoomInfo` then reports
not-found. -/
theorem removeFromRoom_last (s : SigState) (roomId clientId : String)
    (room : Room) (hnd : (mkeys s.rooms).Nodup)
    (hm : mget s.rooms roomId = some room)
    (hlast : room.clients.erase clientId = []) :
    getRoomInfo (removeFromRoom s roomId clientId) roomId = none := by
  simp only [removeFromRoom, hm]
  rw [if_pos (show (room.clients.erase clientId).length = 0 by
    rw [hlast]; rfl)]
  simp only [getRoomInfo]
  rw [mget_mdel_self s.rooms roomId hnd]

end Signal

namespace Metrics

theorem sortAsc_length (values : List ℚ) :
    (sortAsc values).length = values.length :=
  (List.perm_insertionSort (fun a b => a ≤ b) values).length_eq

/-- On a non-empty series and a percentile in `(0, 100]`, the nearest-rank
index `⌈p/100 · n⌉ − 1` is already in range (the `Math.max(0, ·)` clamp is
the identity) and `calculatePercentile` returns the sorted element there. -/
theorem calculatePercentile_spec (values : List ℚ) (p : ℚ)
    (hne : values ≠ []) (hp0 : 0 < p) (hp100 : p ≤ 100) :
    ∃ h : (⌈p / 100 * (values.length : ℚ)⌉ - 1).toNat <
        (sortAsc values).length,
      calculatePercentile values p =
        .num ((sortAsc values).get
          ⟨(⌈p / 100 * (values.length : ℚ)⌉ - 1).toNat, h⟩) := by
  have hn : 0 < values.length := List.length_pos.mpr hne
  have hnq : (0 : ℚ) < (values.length : ℚ) := by exact_mod_cast hn
  have hpos : 0 < ⌈p / 100 * (values.length : ℚ)⌉ :=
    Int.ceil_pos.mpr (mul_pos (div_pos hp0 (by norm_num)) hnq)
  have hle : ⌈p / 100 * (values.length : ℚ)⌉ ≤ (values.length : ℤ) := by
    rw [Int.ceil_le]
    push_cast
    calc p / 100 * (values.length : ℚ)
        ≤ 1 * (values.length : ℚ) :=
          mul_le_mul_of_nonneg_right ((div_le_one (by norm_num)).mpr hp100)
            (le_of_lt hnq)
      _ = (values.length : ℚ) := one_mul _
  have hmax : max (0 : ℤ) (⌈p / 100 * (values.length : ℚ)⌉ - 1) =
      ⌈p / 100 * (values.length : ℚ)⌉ - 1 := by omega
  have hbound : (⌈p / 100 * (values.length : ℚ)⌉ - 1).toNat <
      (sortAsc values).length := by
    rw [sortAsc_length]
    omega
  refine ⟨hbound, ?_⟩
  unfold calculatePercentile
  rw [if_neg (by omega)]
  simp only [hmax]
  rw [dif_pos hbound]

theorem calculatePercentile_ex_p50 :
    calculatePercentile [10, 20, 30, 40, 50] 50 = .num 30 := by
  have hceil : (⌈(50 : ℚ) / 100 *
      ((([10, 20, 30, 40, 50] : List ℚ).length : ℕ) : ℚ)⌉ : ℤ) = 3 := by
    rw [Int.ceil_eq_iff]
    constructor <;> norm_num
  unfold calculatePercentile
  rw [if_neg (by norm_num)]
  simp only [hceil]
  rw [dif_pos (by decide)]
  rfl

theorem calculatePercentile_ex_p95 :
    calculatePercentile [10, 20, 30, 40, 50] 95 = .num 50 := by
  have hceil : (⌈(95 : ℚ) / 100 *
      ((([10, 20, 30, 40, 50] : List ℚ).length : ℕ) : ℚ)⌉ : ℤ) = 5 := by
    rw [Int.ceil_eq_iff]
    constructor <;> norm_num
  unfold calculatePercentile
  rw [if_neg (by norm_num)]
  simp only [hceil]
  rw [dif_pos (by decide)]
  rfl

/-- The collector the C4 evaluation reads: freshly constructed and then
`reset()` — every underlying series is empty. -/
def emptyCollector : MetricsState := reset 0 (initMetrics 0)

end Metrics

namespace Signal

theorem removeFromRoom_clients (s : SigState) (roomId clientId : String) :
    (removeFromRoom s roomId clientId).clients = s.clients := by
  unfold removeFromRoom
  cases mget s.rooms roomId with
  | none => rfl
  | some room =>
    simp only
    split <;> rfl

theorem mget_removeFromRoom (s : SigState) (roomId clientId r : String)
    (hnd : (mkeys s.rooms).Nodup) :
    mget (removeFromRoom s roomId clientId).rooms r =
      if roomId = r then
        match mget s.rooms roomId with
        | none => none
        | some room =>
          if (room.clients.erase clientId).length = 0 then none
          else some { room with clients := room.clients.erase clientId }
      else mget s.rooms r := by
  unfold removeFromRoom
  cases hm : mget s.rooms roomId with
  | none =>
    simp only
    by_cases hr : roomId = r
    · subst hr
      rw [if_pos rfl, hm]
    · rw [if_neg hr]
  | some room =>
    simp only
    by_cases hr : roomId = r
    · subst hr
      rw [if_pos rfl]
      split
      · exact mget_mdel_self s.rooms roomId hnd
      · rw [mget_mset, if_pos rfl]
    · rw [if_neg hr]
      split
      · exact mget_mdel_ne s.rooms roomId r hr
      · rw [mget_mset, if_neg hr]

theorem leaveCurrentRoom_clients (s : SigState) (c : ClientInfo)
    (sid : String) : (leaveCurrentRoom s c sid).clients = s.clients := by
  unfold leaveCurrentRoom
  split
  · exact removeFromRoom_clients s _ sid
  · rfl

theorem leaveCurrentRoom_of_truthy (s : SigState) (c : ClientInfo)
    (sid A : String) (hroom : c.room = some A) (hA : A ≠ "") :
    leaveCurrentRoom s c sid = removeFromRoom s A sid := by
  unfold leaveCurrentRoom
  rw [hroom]
  rw [if_pos (by simp [roomTruthy, hA])]
  rfl

theorem ensureRoom_clients (now : ℚ) (s : SigState) (roomId : String) :
    (ensureRoom now s roomId).clients = s.clients := by
  unfold ensureRoom
  cases mget s.rooms roomId <;> rfl

theorem mget_ensureRoom (now : ℚ) (s : SigState) (roomId r : String) :
    mget (ensureRoom now s roomId).rooms r =
      if roomId = r then
        some ((mget s.rooms roomId).getD { clients := [], created := now })
      else mget s.rooms r := by
  unfold ensureRoom
  cases hm : mget s.rooms roomId with
  | none =>
    simp only
    rw [mget_mset]
    by_cases hr : roomId = r
    · rw [if_pos hr, if_pos hr]
      rfl
    · rw [if_neg hr, if_neg hr]
  | some room =>
    simp only [Option.getD_some]
    by_cases hr : roomId = r
    · subst hr
      rw [if_pos rfl, hm]
    · rw [if_neg hr]

theorem addMember_clients (now : ℚ) (s : SigState) (roomId sid : String) :
    (addMember now s roomId sid).1.clients = s.clients := rfl

theorem addMember_members (now : ℚ) (s : SigState) (roomId sid : String) :
    (addMember now s roomId sid).2 =
      saddUnique ((mget s.rooms roomId).getD
        { clients := [], created := now }).clients sid := rfl

theorem mget_addMember (now : ℚ) (s : SigState) (roomId sid r : String) :
    mget (addMember now s roomId sid).1.rooms r =
      if roomId = r then
        some { (mget s.rooms roomId).getD { clients := [], created := now }
          with clients := saddUnique ((mget s.rooms roomId).getD
            { clients := [], created := now }).clients sid }
      else mget s.rooms r := by
  unfold addMember
  simp only
  rw [mget_mset]

theorem handleJoinRoom_some (now : ℚ) (s : SigState) (sid roomId : String)
    (c : ClientInfo) (hc : mget s.clients sid = some c) :
    handleJoinRoom now s sid roomId =
      ((addMember now
        (ensureRoom now
          { leaveCurrentRoom s c sid with
            clients := mset (leaveCurrentRoom s c sid).clients sid
              { c with room := some roomId } } roomId) roomId sid).1,
       [Emit.peerJoined roomId sid c.type,
        Emit.roomJoined sid roomId
          (roomClientList
            (addMember now
              (ensureRoom now
                { leaveCurrentRoom s c sid with
                  clients := mset (leaveCurrentRoom s c sid).clients sid
                    { c with room := some roomId } } roomId) roomId sid).1
            (addMember now
              (ensureRoom now
                { leaveCurrentRoom s c sid with
                  clients := mset (leaveCurrentRoom s c sid).clients sid
                    { c with room := some roomId } } roomId) roomId sid).2
            sid)]) := by
  unfold handleJoinRoom
  rw [hc]

theorem handleJoinRoom_no_peerLeft (now : ℚ) (s : SigState)
    (sid roomId : String) (r q : String) :
    Emit.peerLeft r q ∉ (handleJoinRoom now s sid roomId).2 := by
  unfold handleJoinRoom
  cases mget s.clients sid with
  | none => simp
  | some c => simp

end Signal

namespace Signal

theorem mget_mem {α : Type} (m : List (String × α)) (k : String) (v : α)
    (h : mget m k = some v) : (k, v) ∈ m := by
  induction m with
  | nil => exact absurd h (by simp [mget])
  | cons hd rest ih =>
    obtain ⟨k₀, v₀⟩ := hd
    simp only [mget] at h
    by_cases h₀ : k₀ = k
    · rw [if_pos h₀] at h
      cases h
      subst h₀
      exact List.mem_cons_self _ rest
    · rw [if_neg h₀] at h
      exact List.mem_cons_of_mem _ (ih h)

end Signal

section DemoInputs

/-- Eleven admissions on a fresh pipeline with the default bound 10: the
eleventh arrives with the queue full and evicts the oldest frame. -/
def elevenPipeEvents : List Detect.PEvent :=
  (List.range 11).map (fun i => Detect.PEvent.enqueue i)

/-- The same eleven admissions as server events (`detectServerSide` calls). -/
def elevenServerEvents : List Server.SEvent :=
  (List.range 11).map (fun i => Server.SEvent.pipe (Detect.PEvent.enqueue i))

/-- Two admissions followed by a full drain. -/
def drainTrace : List Detect.PEvent :=
  [Detect.PEvent.enqueue 1, Detect.PEvent.enqueue 2,
   Detect.PEvent.beginDrain, Detect.PEvent.dispatch, Detect.PEvent.complete,
   Detect.PEvent.dispatch, Detect.PEvent.complete, Detect.PEvent.endDrain]

/-- A pipeline whose queue is at capacity. -/
def fullPipeline : Detect.PipelineState :=
  { maxQueueSize := 3, processingQueue := [4, 5, 6], isProcessing := false
    inFlight := none, enqueued := [4, 5, 6], dispatched := [], evicted := [] }

/-- A pipeline with spare capacity. -/
def sparePipeline : Detect.PipelineState :=
  { maxQueueSize := 3, processingQueue := [4], isProcessing := false
    inFlight := none, enqueued := [4], dispatched := [], evicted := [] }

/-- A pipeline whose drain loop is awaiting an inference (frame 7). -/
def busyPipeline : Detect.PipelineState :=
  { maxQueueSize := 10, processingQueue := [8, 9], isProcessing := true
    inFlight := some 7, enqueued := [7, 8, 9], dispatched := [7]
    evicted := [] }

/-- Signaling state with peers `p1` and `p2` both in room `A`. -/
def sigTwoInA : Signal.SigState :=
  (Signal.handleJoinRoom 2
    (Signal.handleJoinRoom 1
      (Signal.handleConnection (Signal.handleConnection Signal.initSig "p1")
        "p2")
      "p1" "A").1
    "p2" "A").1

/-- Signaling state with peer `p` in the falsy-named room `""`. -/
def sigEmptyName : Signal.SigState :=
  (Signal.handleJoinRoom 1 (Signal.handleConnection Signal.initSig "p")
    "p" "").1

/-- Signaling state with peer `p` alone in room `r1` (created at 1). -/
def sigSolo : Signal.SigState :=
  (Signal.handleJoinRoom 1 (Signal.handleConnection Signal.initSig "p")
    "p" "r1").1

/-- The event trace building `sigTwoInA`. -/
def sigDemoEvents : List Signal.SigEvent :=
  [Signal.SigEvent.connect "p1", Signal.SigEvent.connect "p2",
   Signal.SigEvent.join 1 "p1" "A", Signal.SigEvent.join 2 "p2" "A"]

/-- A two-client state for the relay witnesses: `p1` is in room `A`,
`p2` is connected but roomless. -/
def sigRelayDemo : Signal.SigState :=
  (Signal.handleJoinRoom 1
    (Signal.handleConnection (Signal.handleConnection Signal.initSig "p1")
      "p2")
    "p1" "A").1

end DemoInputs

/-- C1: on any sequence of pipeline events from a fresh service the
processing-queue depth never exceeds `maxQueueSize`; an admission arriving
with depth at or above the bound removes the oldest queued frame (the
head) before inserting the new frame at the tail (recording it as
evicted), and an admission with spare capacity evicts nothing. -/
theorem C1_queue_bound_oldest_drop :
    (∀ k : Nat, 0 < k → ∀ evs : List Detect.PEvent,
      (Detect.runPipeline (Detect.initPipeline k)
        evs).processingQueue.length ≤ k) ∧
    (∀ (s : Detect.PipelineState) (f : Nat),
      s.maxQueueSize ≤ s.processingQueue.length →
      (Detect.pstep s (.enqueue f)).processingQueue =
        s.processingQueue.tail ++ [f] ∧
      (Detect.pstep s (.enqueue f)).evicted =
        s.evicted ++ s.processingQueue.head?.toList) ∧
    (∀ (s : Detect.PipelineState) (f : Nat),
      s.processingQueue.length < s.maxQueueSize →
      (Detect.pstep s (.enqueue f)).processingQueue =
        s.processingQueue ++ [f] ∧
      (Detect.pstep s (.enqueue f)).evicted = s.evicted) := by
  refine ⟨?_, ?_, ?_⟩
  · intro k hk evs
    exact Detect.runPipeline_length_le (Detect.initPipeline k) evs hk
      (by simp [Detect.initPipeline])
  · intro s f hge
    simp only [Detect.pstep, Detect.enqueueStep]
    rw [if_pos hge]
    exact ⟨rfl, rfl⟩
  · intro s f hlt
    simp only [Detect.pstep, Detect.enqueueStep]
    rw [if_neg (by omega)]
    exact ⟨rfl, rfl⟩

/-- Witness for C1 at concrete inputs: eleven admissions against the
default bound 10, one admission against a full queue, one against a queue
with spare capacity. -/
theorem C1_queue_bound_oldest_drop_witness :
    (Detect.runPipeline (Detect.initPipeline 10)
      elevenPipeEvents).processingQueue.length ≤ 10 ∧
    ((Detect.pstep fullPipeline (.enqueue 99)).processingQueue =
        fullPipeline.processingQueue.tail ++ [99] ∧
      (Detect.pstep fullPipeline (.enqueue 99)).evicted =
        fullPipeline.evicted ++ fullPipeline.processingQueue.head?.toList) ∧
    ((Detect.pstep sparePipeline (.enqueue 99)).processingQueue =
        sparePipeline.processingQueue ++ [99] ∧
      (Detect.pstep sparePipeline (.enqueue 99)).evicted =
        sparePipeline.evicted) :=
  ⟨C1_queue_bound_oldest_drop.1 10 (by decide) elevenPipeEvents,
   C1_queue_bound_oldest_drop.2.1 fullPipeline 99 (by decide),
   C1_queue_bound_oldest_drop.2.2 sparePipeline 99 (by decide)⟩

/-- C2 counterexample: with the model session present, a failing
`session.run` is converted to the mock demo detections — here both random
draws are `0.9`, so the resolved list is the two mock detections, not the
empty list; and with the session unavailable `runInference` throws before
its `try`, so `processQueue` rejects, propagating the error to the
caller. -/
theorem C2_counterexample :
    Detect.settleFrame
      (Detect.runInference true (Except.error ()) (9/10) (9/10)) =
      .resolved [Detect.personDetection, Detect.phoneDetection] ∧
    Detect.FrameOutcome.resolved
      [Detect.personDetection, Detect.phoneDetection] ≠
      Detect.FrameOutcome.resolved [] ∧
    Detect.settleFrame
      (Detect.runInference false (Except.ok ()) (9/10) (9/10)) =
      .rejected .sessionUnavailable := by
  refine ⟨?_, ?_, ?_⟩
  · norm_num [Detect.runInference, Detect.getMockDetections,
      Detect.settleFrame, Detect.postprocessResults]
  · decide
  · rfl

/-- C2 (amended): when the inference collaborator fails inside
`runInference`'s `try` block, the frame is resolved with the mock fallback
detections — which may be non-empty (both draws 0.9) or empty (both draws
0.1) — not with a guaranteed empty list; and when the model session is
unavailable the error is propagated as a rejection to the caller. -/
theorem C2_failure_policy :
    (∀ (r1 r2 : ℚ),
      Detect.settleFrame (Detect.runInference true (Except.error ()) r1 r2) =
        .resolved (Detect.getMockDetections r1 r2)) ∧
    (∀ (r1 r2 : ℚ) (rawOutcome : Except Unit Unit),
      Detect.settleFrame (Detect.runInference false rawOutcome r1 r2) =
        .rejected .sessionUnavailable) ∧
    Detect.getMockDetections (9/10) (9/10) ≠ [] ∧
    Detect.getMockDetections (1/10) (1/10) = [] := by
  refine ⟨fun r1 r2 => rfl, fun r1 r2 rawOutcome => rfl, ?_, ?_⟩
  · have h : Detect.getMockDetections (9/10) (9/10) =
        [Detect.personDetection, Detect.phoneDetection] := by
      norm_num [Detect.getMockDetections]
    rw [h]
    decide
  · norm_num [Detect.getMockDetections]

/-- C3 counterexample: eleven `detectServerSide` admissions on the combined
server model evict one frame, yet the metrics collector records no dropped
frame — `recordDroppedFrame` has no caller on the eviction path (or
anywhere else in the repository), so `droppedFrames` and `totalFrames`
stay `0`. -/
theorem C3_counterexample :
    (Server.runServer (Server.initServer 10 0)
      elevenServerEvents).pipeline.evicted = [0] ∧
    (Server.runServer (Server.initServer 10 0)
      elevenServerEvents).metrics.droppedFrames = 0 ∧
    (Server.runServer (Server.initServer 10 0)
      elevenServerEvents).metrics.totalFrames = 0 := by
  refine ⟨?_, ?_, ?_⟩ <;> decide

/-- C3 (amended): evictions never reach the metrics: along every server
trace the dropped-frame counter stays `0`; `recordDroppedFrame` itself,
when invoked, increments `droppedFrames` and `totalFrames` by one — but
nothing in the repository invokes it. -/
theorem C3_eviction_not_counted :
    (∀ (k : Nat) (t0 : ℚ) (evs : List Server.SEvent),
      (Server.runServer (Server.initServer k t0)
        evs).metrics.droppedFrames = 0) ∧
    (∀ m : Metrics.MetricsState, Metrics.recordDroppedFrame m =
      { m with droppedFrames := m.droppedFrames + 1
               totalFrames := m.totalFrames + 1 }) :=
  ⟨fun _k _t0 evs => Server.runServer_droppedFrames _ evs rfl,
   fun _m => rfl⟩

/-- C4 (evaluating the code at the failing input): on a freshly-reset
collector — every underlying series empty — the snapshot's `min` field of
the end-to-end latency statistics is `Infinity` and the `max` fields of
the end-to-end, bandwidth and system statistics are `-Infinity`
(`Math.min()`/`Math.max()` of an empty spread are infinite and truthy, so
the `|| 0` guard does not engage), while every other latency, bandwidth
and system field is `0` as the guard intends. -/
theorem C4_empty_series_evaluation :
    (Metrics.getMetrics 0 Metrics.emptyCollector).endToEnd.min =
      .posInf ∧
    (Metrics.getMetrics 0 Metrics.emptyCollector).endToEnd.max =
      .negInf ∧
    (Metrics.getMetrics 0 Metrics.emptyCollector).uplink.max = .negInf ∧
    (Metrics.getMetrics 0 Metrics.emptyCollector).downlink.max =
      .negInf ∧
    (Metrics.getMetrics 0 Metrics.emptyCollector).cpu.max = .negInf ∧
    (Metrics.getMetrics 0 Metrics.emptyCollector).memory.max = .negInf ∧
    (Metrics.getMetrics 0 Metrics.emptyCollector).endToEnd.median =
      .num 0 ∧
    (Metrics.getMetrics 0 Metrics.emptyCollector).endToEnd.p95 = .num 0 ∧
    (Metrics.getMetrics 0 Metrics.emptyCollector).endToEnd.p99 = .num 0 ∧
    (Metrics.getMetrics 0 Metrics.emptyCollector).endToEnd.average =
      .num 0 ∧
    (Metrics.getMetrics 0 Metrics.emptyCollector).network.median =
      .num 0 ∧
    (Metrics.getMetrics 0 Metrics.emptyCollector).network.p95 = .num 0 ∧
    (Metrics.getMetrics 0 Metrics.emptyCollector).network.average =
      .num 0 ∧
    (Metrics.getMetrics 0 Metrics.emptyCollector).inference.median =
      .num 0 ∧
    (Metrics.getMetrics 0 Metrics.emptyCollector).inference.p95 =
      .num 0 ∧
    (Metrics.getMetrics 0 Metrics.emptyCollector).inference.average =
      .num 0 ∧
    (Metrics.getMetrics 0 Metrics.emptyCollector).uplink.current =
      .num 0 ∧
    (Metrics.getMetrics 0 Metrics.emptyCollector).uplink.average =
      .num 0 ∧
    (Metrics.getMetrics 0 Metrics.emptyCollector).downlink.current =
      .num 0 ∧
    (Metrics.getMetrics 0 Metrics.emptyCollector).downlink.average =
      .num 0 ∧
    (Metrics.getMetrics 0 Metrics.emptyCollector).cpu.current = .num 0 ∧
    (Metrics.getMetrics 0 Metrics.emptyCollector).cpu.average = .num 0 ∧
    (Metrics.getMetrics 0 Metrics.emptyCollector).memory.current =
      .num 0 ∧
    (Metrics.getMetrics 0 Metrics.emptyCollector).memory.average =
      .num 0 ∧
    (Metrics.getMetrics 0 Metrics.emptyCollector).dropRate = 0 :=
  ⟨rfl, rfl, rfl, rfl, rfl, rfl, rfl, rfl, rfl, rfl, rfl, rfl, rfl, rfl,
   rfl, rfl, rfl, rfl, rfl, rfl, rfl, rfl, rfl, rfl, rfl⟩

/-- C5: for every non-empty latency series and percentile in `(0, 100]`,
`calculatePercentile` is nearest-rank — the ascending sort read at index
`⌈p/100 · n⌉ − 1`, which the `Math.max(0, ·)` clamp keeps in the valid
range; in particular on `[10,20,30,40,50]` the p50 is `30` and the p95 is
`50`. -/
theorem C5_nearest_rank :
    (∀ (values : List ℚ) (p : ℚ), values ≠ [] → 0 < p → p ≤ 100 →
      ∃ h : (⌈p / 100 * (values.length : ℚ)⌉ - 1).toNat <
          (Metrics.sortAsc values).length,
        Metrics.calculatePercentile values p =
          .num ((Metrics.sortAsc values).get
            ⟨(⌈p / 100 * (values.length : ℚ)⌉ - 1).toNat, h⟩)) ∧
    Metrics.calculatePercentile [10, 20, 30, 40, 50] 50 = .num 30 ∧
    Metrics.calculatePercentile [10, 20, 30, 40, 50] 95 = .num 50 :=
  ⟨Metrics.calculatePercentile_spec, Metrics.calculatePercentile_ex_p50,
   Metrics.calculatePercentile_ex_p95⟩

/-- Witness for C5 at a concrete input: the series `[10,20,30,40,50]` with
percentile 40. -/
theorem C5_nearest_rank_witness :
    ([10, 20, 30, 40, 50] : List ℚ) ≠ [] ∧ (0 : ℚ) < 40 ∧
    (40 : ℚ) ≤ 100 ∧
    ∃ h : (⌈(40 : ℚ) / 100 *
        ((([10, 20, 30, 40, 50] : List ℚ).length : ℚ))⌉ - 1).toNat <
        (Metrics.sortAsc [10, 20, 30, 40, 50]).length,
      Metrics.calculatePercentile [10, 20, 30, 40, 50] 40 =
        .num ((Metrics.sortAsc [10, 20, 30, 40, 50]).get
          ⟨(⌈(40 : ℚ) / 100 *
            ((([10, 20, 30, 40, 50] : List ℚ).length : ℚ))⌉ - 1).toNat,
            h⟩) :=
  ⟨by decide, by norm_num, by norm_num,
   C5_nearest_rank.1 [10, 20, 30, 40, 50] 40 (by decide) (by norm_num)
     (by norm_num)⟩

/-- C6: frames surviving eviction are dispatched in strict FIFO order of
admission — on any trace from a fresh pipeline, two distinct admitted
frames that are both dispatched appear in the dispatch history in their
admission order; and no new frame is popped while an inference is awaited:
a `dispatch` step with `inFlight` set is a no-op, so at most one inference
is in flight per pipeline instance. -/
theorem C6_fifo_serialized :
    (∀ (k : Nat) (evs : List Detect.PEvent) (a b : Nat),
      (Detect.runPipeline (Detect.initPipeline k) evs).enqueued.Nodup →
      List.Sublist [a, b]
        (Detect.runPipeline (Detect.initPipeline k) evs).enqueued →
      a ∈ (Detect.runPipeline (Detect.initPipeline k) evs).dispatched →
      b ∈ (Detect.runPipeline (Detect.initPipeline k) evs).dispatched →
      List.Sublist [a, b]
        (Detect.runPipeline (Detect.initPipeline k) evs).dispatched) ∧
    (∀ (s : Detect.PipelineState) (x : Nat), s.inFlight = some x →
      Detect.pstep s .dispatch = s) := by
  constructor
  · intro k evs a b hnd hab ha hb
    have hinv := Detect.runPipeline_histInv (Detect.initPipeline k) evs
      (Detect.histInv_init k)
    exact Detect.pair_sublist_of_sublist
      (Detect.dispatched_sublist_enqueued _ hinv) hnd hab ha hb
  · exact Detect.pstep_dispatch_of_inFlight

/-- Witness for C6: a concrete drain of two frames dispatches them in
admission order, and a concrete `dispatch` against a pipeline with an
in-flight inference changes nothing. -/
theorem C6_fifo_serialized_witness :
    (Detect.runPipeline (Detect.initPipeline 2) drainTrace).enqueued.Nodup ∧
    List.Sublist [1, 2]
      (Detect.runPipeline (Detect.initPipeline 2) drainTrace).enqueued ∧
    1 ∈ (Detect.runPipeline (Detect.initPipeline 2) drainTrace).dispatched ∧
    2 ∈ (Detect.runPipeline (Detect.initPipeline 2) drainTrace).dispatched ∧
    List.Sublist [1, 2]
      (Detect.runPipeline (Detect.initPipeline 2) drainTrace).dispatched ∧
    busyPipeline.inFlight = some 7 ∧
    Detect.pstep busyPipeline .dispatch = busyPipeline :=
  ⟨by decide, by decide, by decide, by decide,
   C6_fifo_serialized.1 2 drainTrace 1 2 (by decide) (by decide)
     (by decide) (by decide),
   rfl, C6_fifo_serialized.2 busyPipeline 7 rfl⟩

/-- C7: over every sequence of connect/register/join/disconnect events
from a fresh signaling server, no retained room has an empty member set;
and removing a room's last member (the `leave` step shared by join-switch
and disconnect) deletes the room in that same step, after which
`getRoomInfo` reports not-found. -/
theorem C7_room_lifecycle :
    (∀ (evs : List Signal.SigEvent) (r : String) (room : Signal.Room),
      Signal.mget (Signal.runSig Signal.initSig evs).rooms r = some room →
      room.clients ≠ []) ∧
    (∀ (s : Signal.SigState) (roomId clientId : String)
      (room : Signal.Room),
      (Signal.mkeys s.rooms).Nodup →
      Signal.mget s.rooms roomId = some room →
      room.clients.erase clientId = [] →
      Signal.getRoomInfo (Signal.removeFromRoom s roomId clientId)
        roomId = none) := by
  constructor
  · intro evs r room hm
    exact (Signal.runSig_roomsWF Signal.initSig evs
      Signal.roomsWF_init).2 r room hm
  · intro s roomId clientId room hnd hm hlast
    exact Signal.removeFromRoom_last s roomId clientId room hnd hm hlast

/-- Witness for C7: a concrete two-peer room is retained non-empty, and
deleting the sole member of a concrete room makes `getRoomInfo` return
not-found. -/
theorem C7_room_lifecycle_witness :
    Signal.mget (Signal.runSig Signal.initSig sigDemoEvents).rooms "A" =
      some { clients := ["p1", "p2"], created := 1 } ∧
    ({ clients := ["p1", "p2"], created := 1 } : Signal.Room).clients ≠
      [] ∧
    (Signal.mkeys sigSolo.rooms).Nodup ∧
    Signal.mget sigSolo.rooms "r1" =
      some { clients := ["p"], created := 1 } ∧
    ({ clients := ["p"], created := 1 } : Signal.Room).clients.erase "p" =
      [] ∧
    Signal.getRoomInfo (Signal.removeFromRoom sigSolo "r1" "p") "r1" =
      none :=
  ⟨by decide,
   C7_room_lifecycle.1 sigDemoEvents "A"
     { clients := ["p1", "p2"], created := 1 } (by decide),
   by decide, by decide, by decide,
   C7_room_lifecycle.2 sigSolo "r1" "p"
     { clients := ["p"], created := 1 } (by decide) (by decide)
     (by decide)⟩

/-- C9: each of the four targeted relays (offer, answer, ICE candidate,
data-channel message) is a silent no-op — state unchanged, nothing
emitted — when the sender is unknown or has no truthy room, and otherwise
forwards the payload verbatim to the requested target tagged with the
sender's id; the target is arbitrary (no shared-room requirement). -/
theorem C9_relay_guard_verbatim :
    ∀ (s : Signal.SigState) (sid targetId : String) (payload : Nat),
    (Signal.mget s.clients sid = none →
      Signal.handleOffer s sid targetId payload = (s, []) ∧
      Signal.handleAnswer s sid targetId payload = (s, []) ∧
      Signal.handleIceCandidate s sid targetId payload = (s, []) ∧
      Signal.handleDataChannelMessage s sid targetId payload = (s, [])) ∧
    (∀ c : Signal.ClientInfo, Signal.mget s.clients sid = some c →
      Signal.roomTruthy c.room = false →
      Signal.handleOffer s sid targetId payload = (s, []) ∧
      Signal.handleAnswer s sid targetId payload = (s, []) ∧
      Signal.handleIceCandidate s sid targetId payload = (s, []) ∧
      Signal.handleDataChannelMessage s sid targetId payload = (s, [])) ∧
    (∀ c : Signal.ClientInfo, Signal.mget s.clients sid = some c →
      Signal.roomTruthy c.room = true →
      Signal.handleOffer s sid targetId payload =
        (s, [Signal.Emit.offerMsg targetId sid payload]) ∧
      Signal.handleAnswer s sid targetId payload =
        (s, [Signal.Emit.answerMsg targetId sid payload]) ∧
      Signal.handleIceCandidate s sid targetId payload =
        (s, [Signal.Emit.iceMsg targetId sid payload]) ∧
      Signal.handleDataChannelMessage s sid targetId payload =
        (s, [Signal.Emit.dcMsg targetId sid payload])) := by
  intro s sid targetId payload
  refine ⟨?_, ?_, ?_⟩
  · intro hno
    have hg : Signal.senderCanRelay s sid = false := by
      unfold Signal.senderCanRelay
      rw [hno]
    simp [Signal.handleOffer, Signal.handleAnswer,
      Signal.handleIceCandidate, Signal.handleDataChannelMessage, hg]
  · intro c hc hfalse
    have hg : Signal.senderCanRelay s sid = false := by
      unfold Signal.senderCanRelay
      rw [hc]
      exact hfalse
    simp [Signal.handleOffer, Signal.handleAnswer,
      Signal.handleIceCandidate, Signal.handleDataChannelMessage, hg]
  · intro c hc htrue
    have hg : Signal.senderCanRelay s sid = true := by
      unfold Signal.senderCanRelay
      rw [hc]
      exact htrue
    simp [Signal.handleOffer, Signal.handleAnswer,
      Signal.handleIceCandidate, Signal.handleDataChannelMessage, hg]

/-- Witness for C9: in a concrete state, the roomless peer `p2` cannot
relay an offer (silent no-op), while `p1` — in room `A` — relays to the
roomless, no-shared-room target `p2` verbatim. -/
theorem C9_relay_guard_verbatim_witness :
    Signal.mget sigRelayDemo.clients "p2" =
      some { type := none, room := none } ∧
    Signal.roomTruthy (none : Option String) = false ∧
    Signal.handleOffer sigRelayDemo "p2" "p1" 42 = (sigRelayDemo, []) ∧
    Signal.mget sigRelayDemo.clients "p1" =
      some { type := none, room := some "A" } ∧
    Signal.roomTruthy (some "A") = true ∧
    Signal.handleOffer sigRelayDemo "p1" "p2" 42 =
      (sigRelayDemo, [Signal.Emit.offerMsg "p2" "p1" 42]) :=
  ⟨by decide, by decide,
   ((C9_relay_guard_verbatim sigRelayDemo "p2" "p1" 42).2.1
     { type := none, room := none } (by decide) (by decide)).1,
   by decide, by decide,
   ((C9_relay_guard_verbatim sigRelayDemo "p1" "p2" 42).2.2
     { type := none, room := some "A" } (by decide) (by decide)).1⟩

namespace Signal

theorem rooms_withClients (x : SigState) (v : List (String × ClientInfo)) :
    ({ x with clients := v } : SigState).rooms = x.rooms := rfl

theorem clients_withClients (x : SigState)
    (v : List (String × ClientInfo)) :
    ({ x with clients := v } : SigState).clients = v := rfl

/-- Full characterization of `handleJoinRoom` for a known client with a
truthy current room `A` joining `roomB`: the target room's final entry,
the untouched other rooms (relative to the `removeFromRoom` of `A`), the
updated client record, and the two emissions. -/
theorem handleJoinRoom_char (now : ℚ) (s : SigState) (p A roomB : String)
    (c : ClientInfo) (hc : mget s.clients p = some c)
    (hroom : c.room = some A) (hA : A ≠ "") :
    mget (handleJoinRoom now s p roomB).1.rooms roomB =
      some { (mget (removeFromRoom s A p).rooms roomB).getD
          { clients := [], created := now } with
        clients := saddUnique ((mget (removeFromRoom s A p).rooms
          roomB).getD { clients := [], created := now }).clients p } ∧
    (∀ r, r ≠ roomB → mget (handleJoinRoom now s p roomB).1.rooms r =
      mget (removeFromRoom s A p).rooms r) ∧
    (handleJoinRoom now s p roomB).1.clients =
      mset s.clients p { c with room := some roomB } ∧
    (handleJoinRoom now s p roomB).2 =
      [Emit.peerJoined roomB p c.type,
       Emit.roomJoined p roomB
         (roomClientList (handleJoinRoom now s p roomB).1
           (saddUnique ((mget (removeFromRoom s A p).rooms roomB).getD
             { clients := [], created := now }).clients p) p)] := by
  have hs1 : leaveCurrentRoom s c p = removeFromRoom s A p :=
    leaveCurrentRoom_of_truthy s c p A hroom hA
  rw [handleJoinRoom_some now s p roomB c hc]
  refine ⟨?_, ?_, ?_, ?_⟩
  · simp only [mget_addMember, mget_ensureRoom, eq_self_iff_true, if_true,
      Option.getD_some, rooms_withClients, hs1]
  · intro r hr
    simp only [mget_addMember, mget_ensureRoom]
    rw [if_neg (fun h => hr h.symm), if_neg (fun h => hr h.symm)]
    rw [rooms_withClients, hs1]
  · simp only [addMember_clients, ensureRoom_clients, clients_withClients,
      leaveCurrentRoom_clients]
  · simp only [addMember_members, mget_ensureRoom, eq_self_iff_true,
      if_true, Option.getD_some, rooms_withClients, hs1]

end Signal

/-- C8 counterexample: peer `p1` switches from room `A` (where `p2`
remains) to room `B`, and the join emits only `peer-joined` and
`room-joined` — no `peer-left` reaches `A`'s remaining member, although
the claim requires the full leave side effect.  Further, a peer whose
recorded room is the falsy name `""` is not removed from it on a switch:
after joining `B` it is still a member of room `""`. -/
theorem C8_counterexample :
    (Signal.handleJoinRoom 3 sigTwoInA "p1" "B").2 =
      [Signal.Emit.peerJoined "B" "p1" none,
       Signal.Emit.roomJoined "p1" "B" []] ∧
    Signal.mget sigTwoInA.rooms "A" =
      some { clients := ["p1", "p2"], created := 1 } ∧
    Signal.mget (Signal.handleJoinRoom 2 sigEmptyName "p" "B").1.rooms
      "" = some { clients := ["p"], created := 1 } ∧
    Signal.mget (Signal.handleJoinRoom 2 sigEmptyName "p" "B").1.clients
      "p" = some { type := none, room := some "B" } := by
  refine ⟨?_, ?_, ?_, ?_⟩ <;> decide

/-- C8 (amended): a peer in truthy room `A` joining a different room `B`
is removed from `A` silently — the join emits no `peer-left`
notification — and afterwards the peer's record points at `B`, the peer
is a member of `B`, and of no other room (given a well-formed state where
the peer was a member only of `A` with duplicate-free member sets). -/
theorem C8_join_switches_room (now : ℚ) (s : Signal.SigState)
    (p A B : String) (c : Signal.ClientInfo)
    (hc : Signal.mget s.clients p = some c)
    (hroom : c.room = some A) (hA : A ≠ "") (_hAB : A ≠ B)
    (hnd : (Signal.mkeys s.rooms).Nodup)
    (honly : ∀ pr ∈ s.rooms, p ∈ pr.2.clients → pr.1 = A)
    (hclnodup : ∀ pr ∈ s.rooms, pr.2.clients.Nodup) :
    (∀ (r q : String),
      Signal.Emit.peerLeft r q ∉ (Signal.handleJoinRoom now s p B).2) ∧
    Signal.mget (Signal.handleJoinRoom now s p B).1.clients p =
      some { c with room := some B } ∧
    (∃ rm, Signal.mget (Signal.handleJoinRoom now s p B).1.rooms B =
      some rm ∧ p ∈ rm.clients) ∧
    (∀ (r : String) (rm : Signal.Room), r ≠ B →
      Signal.mget (Signal.handleJoinRoom now s p B).1.rooms r = some rm →
      p ∉ rm.clients) := by
  obtain ⟨hB, hOther, hClients, hEmits⟩ :=
    Signal.handleJoinRoom_char now s p A B c hc hroom hA
  refine ⟨?_, ?_, ?_, ?_⟩
  · intro r q
    exact Signal.handleJoinRoom_no_peerLeft now s p B r q
  · rw [hClients, Signal.mget_mset, if_pos rfl]
  · exact ⟨_, hB, Signal.mem_saddUnique_self _ p⟩
  · intro r rm hrB hm'
    rw [hOther r hrB] at hm'
    rw [Signal.mget_removeFromRoom s A p r hnd] at hm'
    by_cases hrA : A = r
    · rw [if_pos hrA] at hm'
      cases hmA : Signal.mget s.rooms A with
      | none =>
        simp only [hmA] at hm'
        exact absurd hm' (by simp)
      | some roomA =>
        simp only [hmA] at hm'
        by_cases hlen : (roomA.clients.erase p).length = 0
        · rw [if_pos hlen] at hm'
          exact absurd hm' (by simp)
        · rw [if_neg hlen] at hm'
          cases hm'
          intro hmem
          have hnodupA : roomA.clients.Nodup :=
            hclnodup (A, roomA) (Signal.mget_mem s.rooms A roomA hmA)
          exact ((List.Nodup.mem_erase_iff hnodupA).mp hmem).1 rfl
    · rw [if_neg hrA] at hm'
      intro hmem
      exact hrA (honly (r, rm) (Signal.mget_mem s.rooms r rm hm') hmem).symm

/-- Witness for C8 at a concrete state: `p1` (in room `A` alongside `p2`)
joins `B`; no `peer-left` is emitted, `p1`'s record points at `B`, `p1`
is a member of `B`, and room `A` — which now holds only `p2` — no longer
contains `p1`. -/
theorem C8_join_switches_room_witness :
    Signal.mget sigTwoInA.clients "p1" =
      some { type := none, room := some "A" } ∧
    Signal.Emit.peerLeft "A" "p1" ∉
      (Signal.handleJoinRoom 3 sigTwoInA "p1" "B").2 ∧
    Signal.mget (Signal.handleJoinRoom 3 sigTwoInA "p1" "B").1.clients
      "p1" = some { type := none, room := some "B" } ∧
    (∃ rm, Signal.mget
      (Signal.handleJoinRoom 3 sigTwoInA "p1" "B").1.rooms "B" =
        some rm ∧ "p1" ∈ rm.clients) ∧
    Signal.mget (Signal.handleJoinRoom 3 sigTwoInA "p1" "B").1.rooms
      "A" = some { clients := ["p2"], created := 1 } ∧
    "p1" ∉ ({ clients := ["p2"], created := 1 } : Signal.Room).clients :=
  ⟨by decide,
   (C8_join_switches_room 3 sigTwoInA "p1" "A" "B"
     { type := none, room := some "A" } (by decide) rfl (by decide)
     (by decide) (by decide) (by decide) (by decide)).1 "A" "p1",
   (C8_join_switches_room 3 sigTwoInA "p1" "A" "B"
     { type := none, room := some "A" } (by decide) rfl (by decide)
     (by decide) (by decide) (by decide) (by decide)).2.1,
   (C8_join_switches_room 3 sigTwoInA "p1" "A" "B"
     { type := none, room := some "A" } (by decide) rfl (by decide)
     (by decide) (by decide) (by decide) (by decide)).2.2.1,
   by decide,
   (C8_join_switches_room 3 sigTwoInA "p1" "A" "B"
     { type := none, room := some "A" } (by decide) rfl (by decide)
     (by decide) (by decide) (by decide) (by decide)).2.2.2 "A"
     { clients := ["p2"], created := 1 } (by decide) (by decide)⟩

/-- C10: a peer that is the sole member of a (truthy) room `R` and joins
`R` again is first removed from `R` — deleting it — and `R` is recreated
with the fresh timestamp `now`; the `room-joined` reply lists no other
members. -/
theorem C10_rejoin_resets_room (now : ℚ) (s : Signal.SigState)
    (p R : String) (c : Signal.ClientInfo) (rm : Signal.Room)
    (hc : Signal.mget s.clients p = some c)
    (hroom : c.room = some R) (hR : R ≠ "")
    (hm : Signal.mget s.rooms R = some rm) (hsole : rm.clients = [p])
    (hnd : (Signal.mkeys s.rooms).Nodup) :
    Signal.mget (Signal.handleJoinRoom now s p R).1.rooms R =
      some { clients := [p], created := now } ∧
    (Signal.handleJoinRoom now s p R).2 =
      [Signal.Emit.peerJoined R p c.type,
       Signal.Emit.roomJoined p R []] := by
  obtain ⟨hB, hOther, hClients, hEmits⟩ :=
    Signal.handleJoinRoom_char now s p R R c hc hroom hR
  have hremoved :
      Signal.mget (Signal.removeFromRoom s R p).rooms R = none := by
    unfold Signal.removeFromRoom
    rw [hm]
    simp only [hsole]
    rw [if_pos (by rw [List.erase_cons_head]; rfl)]
    exact Signal.mget_mdel_self s.rooms R hnd
  constructor
  · rw [hB, hremoved]
    simp [Signal.saddUnique]
  · rw [hEmits, hremoved]
    have hmem : Signal.saddUnique
        (((none : Option Signal.Room).getD
          { clients := [], created := now }).clients) p = [p] := by
      simp [Signal.saddUnique]
    rw [hmem]
    simp [Signal.roomClientList]

/-- Witness for C10: the sole occupant `p` of room `r1` (created at 1)
re-joins `r1` at time 5 — the room's creation timestamp becomes 5 and the
reply lists no other members. -/
theorem C10_rejoin_resets_room_witness :
    Signal.mget (Signal.handleJoinRoom 5 sigSolo "p" "r1").1.rooms "r1" =
      some { clients := ["p"], created := 5 } ∧
    (Signal.handleJoinRoom 5 sigSolo "p" "r1").2 =
      [Signal.Emit.peerJoined "r1" "p" none,
       Signal.Emit.roomJoined "p" "r1" []] :=
  C10_rejoin_resets_room 5 sigSolo "p" "r1"
    { type := none, room := some "r1" } { clients := ["p"], created := 1 }
    (by decide) rfl (by decide) (by decide) rfl (by decide)

/-- C9 counterexample: peer `p` is associated with a room in every sense
the state records — its client record points at room `""` and room `""`
is retained in the room map with `p` as its member — yet the relay guard
`if (!client || !client.room)` treats the empty-string room id as falsy
and silently drops its offer instead of forwarding it. -/
theorem C9_counterexample :
    Signal.mget sigEmptyName.clients "p" =
      some { type := none, room := some "" } ∧
    Signal.mget sigEmptyName.rooms "" =
      some { clients := ["p"], created := 1 } ∧
    Signal.handleOffer sigEmptyName "p" "x" 42 = (sigEmptyName, []) ∧
    Signal.handleAnswer sigEmptyName "p" "x" 42 = (sigEmptyName, []) ∧
    Signal.handleIceCandidate sigEmptyName "p" "x" 42 =
      (sigEmptyName, []) ∧
    Signal.handleDataChannelMessage sigEmptyName "p" "x" 42 =
      (sigEmptyName, []) := by
  refine ⟨?_, ?_, ?_, ?_, ?_, ?_⟩ <;> decide

/-- C10 counterexample: peer `p` is the sole member of room `""` (created
at 1) and re-joins `""` at time 7; the `if (client.room)` guard is falsy
for the empty-string id, so the peer is never removed, the room is not
deleted and recreated, and its creation timestamp stays 1 — not the fresh
7 the claim requires. -/
theorem C10_counterexample :
    Signal.mget sigEmptyName.clients "p" =
      some { type := none, room := some "" } ∧
    Signal.mget sigEmptyName.rooms "" =
      some { clients := ["p"], created := 1 } ∧
    Signal.mget (Signal.handleJoinRoom 7 sigEmptyName "p" "").1.rooms
      "" = some { clients := ["p"], created := 1 } ∧
    Signal.mget (Signal.handleJoinRoom 7 sigEmptyName "p" "").1.rooms
      "" ≠ some { clients := ["p"], created := 7 } := by
  refine ⟨?_, ?_, ?_, ?_⟩ <;> decide
